import Mathlib

/-!
Verification development for the diplib image-processing core.

This file gives a shallow embedding, in Lean 4, of the parts of the
library that the specification's checkable claims are about:

* the sample data-type tags and the clamping numeric cast used by the
  strided copy/convert primitive (`src/src/library/image_copy.cpp`);
* the `Image` metadata record and the metadata-only view operations
  `Crop`, `Mirror`, `ReinterpretCast`, `Convert` (bin to 8-bit path) and
  `SwapBytesInSample` (`src/src/library/image_manip.cpp`,
  `src/src/library/image_copy.cpp`);
* the mask- and offset-addressed `CopyTo` scatter operations
  (`src/src/library/image_copy.cpp`);
* chain-code conversion and polygon reconstruction
  (`src/src/measurement/chain_code.cpp`);
* the two-pass parabolic morphology line filter
  (`src/src/morphology/basic.cpp`).

Machine integers of the C++ code are modelled as `Nat`/`Int` (strides and
offsets are in sample units, exactly as in the library), and floating
point samples are modelled by exact rationals.  Fallible operations
return `Except`.
-/

/-- Error conditions raised by the library (`dip::E::...`). -/
inductive DipErr where
  | notForged
  | arrayParameterWrongLength
  | indexOutOfRange
  | illegalDimension
  | sizesDontMatch
  | maskNotValid
  | arrayParameterEmpty
  | nTensorElemDontMatch
  | incompatibleCast
  | imageProtected
  | notImplemented
  | weirdChainCode
deriving DecidableEq, Repr

/-- Sample data-type tags of the library (`dip::DataType`). -/
inductive DataType where
  | BIN | UINT8 | SINT8 | UINT16 | SINT16 | UINT32 | SINT32 | UINT64 | SINT64
  | SFLOAT | DFLOAT | SCFLOAT | DCFLOAT
deriving DecidableEq, Repr

/-- Size in bytes of one sample of the given type (`dip::DataType::SizeOf`). -/
def DataType.byteSize : DataType → Nat
  | .BIN => 1
  | .UINT8 => 1
  | .SINT8 => 1
  | .UINT16 => 2
  | .SINT16 => 2
  | .UINT32 => 4
  | .SINT32 => 4
  | .UINT64 => 8
  | .SINT64 => 8
  | .SFLOAT => 4
  | .DFLOAT => 8
  | .SCFLOAT => 8
  | .DCFLOAT => 16

/-- True for the integer sample types (signed and unsigned, 8 to 64 bit). -/
def DataType.isIntType : DataType → Bool
  | .UINT8 | .SINT8 | .UINT16 | .SINT16 | .UINT32 | .SINT32 | .UINT64 | .SINT64 => true
  | _ => false

/-- Smallest representable value of an integer sample type, as a rational. -/
def DataType.minValue : DataType → ℚ
  | .UINT8 | .UINT16 | .UINT32 | .UINT64 | .BIN => 0
  | .SINT8 => -128
  | .SINT16 => -32768
  | .SINT32 => -2147483648
  | .SINT64 => -9223372036854775808
  | _ => 0

/-- Largest representable value of an integer sample type, as a rational. -/
def DataType.maxValue : DataType → ℚ
  | .BIN => 1
  | .UINT8 => 255
  | .SINT8 => 127
  | .UINT16 => 65535
  | .SINT16 => 32767
  | .UINT32 => 4294967295
  | .SINT32 => 2147483647
  | .UINT64 => 18446744073709551615
  | .SINT64 => 9223372036854775807
  | _ => 0

/-- Modelled from the spec: the body of `dip::clamp_cast` lives in a header
that is not part of the sources given (only its call sites in
`WriteSamples`/`ReadSamples` of `src/src/library/image_copy.cpp` are).
Per the spec, the copy/convert primitive converts samples between types
via a saturating cast: out-of-range values clamp to the destination
type's representable extremes rather than wrapping or raising an error,
and the binary type coerces any non-zero value to true.  In-range values
pass through (in-range rounding of fractional values is outside the
claims and is not modelled).  Sample values are modelled as exact
rationals. -/
def clamp_cast (v : ℚ) (dt : DataType) : ℚ :=
  if dt = .BIN then (if v = 0 then 0 else 1)
  else if dt.isIntType then
    if dt.maxValue < v then dt.maxValue
    else if v < dt.minValue then dt.minValue
    else v
  else v

/-- Image metadata and (abstract) sample data.  Field for field this is
the metadata of `dip::Image`: per-dimension sizes (in pixels), signed
per-dimension strides and the tensor stride (in samples), the sample
data-type tag, the origin (offset, in samples, of the origin pointer into
the shared data segment), the forged/protected flags, whether the data
segment is shared with another image, an identifier of the data segment,
and the sample data itself (a flat list, one entry per sample, of a type
chosen per claim: a rational for numeric samples, a byte list for
byte-level claims, `Unit` when the data is irrelevant). -/
structure Image (α : Type) where
  sizes : List Nat
  strides : List Int
  tensorStride : Int
  dataType : DataType
  origin : Int
  forged : Bool
  shared : Bool
  prot : Bool
  segment : Nat
  data : List α
deriving DecidableEq, Repr

/-- CL6: for every sample value converted between differing types by the
copy/convert primitive, a value above an integer destination type's
representable maximum converts to that maximum, a value below the
representable minimum converts to that minimum, the result always lies in
the destination's representable range (no wraparound, and `clamp_cast` is
total, so no error), conversion to the binary type maps every non-zero
value to true (1) and zero to false (0), and in particular 300 converted
to uint8 yields 255, not 44. -/
theorem clamp_cast_saturates (v : ℚ) (dt : DataType) (hint : dt.isIntType = true) :
    (dt.maxValue < v → clamp_cast v dt = dt.maxValue) ∧
    (v < dt.minValue → clamp_cast v dt = dt.minValue) ∧
    (dt.minValue ≤ clamp_cast v dt) ∧
    (clamp_cast v dt ≤ dt.maxValue) ∧
    (∀ w : ℚ, w ≠ 0 → clamp_cast w .BIN = 1) ∧
    (clamp_cast 0 .BIN = 0) ∧
    (clamp_cast 300 .UINT8 = 255) ∧
    ((255 : ℚ) ≠ 44) := by
  have hbin : dt ≠ DataType.BIN := by
    intro h; subst h; simp [DataType.isIntType] at hint
  have hminmax : dt.minValue ≤ dt.maxValue := by
    cases dt <;> simp_all [DataType.isIntType, DataType.minValue, DataType.maxValue] <;> norm_num
  refine ⟨?_, ?_, ?_, ?_, ?_, ?_, ?_, ?_⟩
  · intro h
    simp only [clamp_cast, if_neg hbin, hint, if_pos h, if_true]
  · intro h
    have h2 : ¬ dt.maxValue < v := by
      intro hc
      exact absurd (lt_trans h (lt_of_le_of_lt hminmax hc)) (lt_irrefl v)
    simp only [clamp_cast, if_neg hbin, hint, if_true, if_neg h2, if_pos h]
  · simp only [clamp_cast, if_neg hbin, hint, if_true]
    split
    · exact hminmax
    · split
      · exact le_refl _
      · next h1 h2 => exact le_of_not_lt h2
  · simp only [clamp_cast, if_neg hbin, hint, if_true]
    split
    · exact le_refl _
    · split
      · exact hminmax
      · next h1 h2 => exact le_of_not_lt h1
  · intro w hw
    simp [clamp_cast, hw]
  · simp [clamp_cast]
  · norm_num [clamp_cast, DataType.isIntType, DataType.maxValue, DataType.minValue]
    decide
  · norm_num

/-- Witness for `clamp_cast_saturates` at `v = 300`, `dt = UINT8`. -/
theorem clamp_cast_saturates_witness :
    DataType.isIntType .UINT8 = true ∧ clamp_cast 300 .UINT8 = 255 :=
  ⟨by decide, (clamp_cast_saturates 300 .UINT8 (by decide)).2.2.2.2.2.2.1⟩

/-! ## Crop (`src/src/library/image_manip.cpp`, `GetWindowOrigin` and `Image::Crop`) -/

/-- Placement policies for `Crop`/`Pad` (`dip::Option::CropLocation`). -/
inductive CropLocation where
  | CENTER | MIRROR_CENTER | TOP_LEFT | BOTTOM_RIGHT
deriving DecidableEq, Repr

/-- Per-dimension origin of the crop window (`GetWindowOrigin`).  For
CENTER the origin is `diff / 2` plus one if the image size is even and
the window size is odd; for MIRROR_CENTER it is `diff / 2` plus one if
the image size is odd and the window size is even; TOP_LEFT keeps the
origin at 0 and BOTTOM_RIGHT uses `imageSize - windowSize`. -/
def GetWindowOrigin (imageSizes windowSizes : List Nat) (loc : CropLocation) : List Nat :=
  match loc with
  | .CENTER =>
      List.zipWith (fun m w => (m - w) / 2 + (if m % 2 = 0 ∧ w % 2 = 1 then 1 else 0))
        imageSizes windowSizes
  | .MIRROR_CENTER =>
      List.zipWith (fun m w => (m - w) / 2 + (if m % 2 = 1 ∧ w % 2 = 0 then 1 else 0))
        imageSizes windowSizes
  | .TOP_LEFT => List.map (fun _ => 0) imageSizes
  | .BOTTOM_RIGHT => List.zipWith (fun m w => m - w) imageSizes windowSizes

/-- Offset, in samples, of the pixel at the given coordinates from the
origin (`dip::Image::Offset`, used by `Pointer( origin )` in `Crop`). -/
def pointerOffset (coords : List Nat) (strides : List Int) : Int :=
  (List.zipWith (fun (c : Nat) (s : Int) => (c : Int) * s) coords strides).sum

/-- Elementwise test used to model the guard `sizes > sizes_` of
`Image::Crop`.  The `DimensionArray` comparison operator lives in a
header outside the given sources; it is modelled as "some requested
window size exceeds the corresponding image size", which under the
claims' hypothesis (window no larger than the image in every dimension)
is false under any elementwise reading. -/
def anyGreater : List Nat → List Nat → Bool
  | w :: ws, m :: ms => decide (m < w) || anyGreater ws ms
  | _, _ => false

/-- Metadata effect of `dip::Image::Crop`: requires a forged image and a
window-size array of the image's dimensionality, with no window size
exceeding the image size; relocates the origin to the window origin
computed by `GetWindowOrigin` and shrinks the sizes.  Strides, tensor
metadata, data type and the data segment are untouched. -/
def Image.crop (img : Image α) (ws : List Nat) (loc : CropLocation) : Except DipErr (Image α) :=
  if img.forged = false then .error .notForged
  else if ws.length ≠ img.sizes.length then .error .arrayParameterWrongLength
  else if anyGreater ws img.sizes then .error .indexOutOfRange
  else .ok { img with
    origin := img.origin + pointerOffset (GetWindowOrigin img.sizes ws loc) img.strides,
    sizes := ws }

lemma getD_zipWith_nat (f : Nat → Nat → Nat) (l1 l2 : List Nat) (i : Nat)
    (h1 : i < l1.length) (h2 : i < l2.length) :
    (List.zipWith f l1 l2).getD i 0 = f (l1.getD i 0) (l2.getD i 0) := by
  induction l1 generalizing l2 i with
  | nil => simp at h1
  | cons a as ih =>
    cases l2 with
    | nil => simp at h2
    | cons b bs =>
      cases i with
      | zero => simp [List.getD]
      | succ n =>
        simp only [List.zipWith_cons_cons, List.getD_cons_succ]
        exact ih bs n (Nat.lt_of_succ_lt_succ h1) (Nat.lt_of_succ_lt_succ h2)

lemma anyGreater_eq_false (ws ms : List Nat) (hlen : ws.length = ms.length)
    (hle : ∀ i, i < ws.length → ws.getD i 0 ≤ ms.getD i 0) :
    anyGreater ws ms = false := by
  induction ws generalizing ms with
  | nil => cases ms <;> simp [anyGreater]
  | cons w ws ih =>
    cases ms with
    | nil => simp at hlen
    | cons m ms =>
      have h0 := hle 0 (by simp)
      simp only [List.getD_cons_zero] at h0
      simp only [anyGreater, Bool.or_eq_false_iff, decide_eq_false_iff_not, Nat.not_lt]
      refine ⟨h0, ih ms (by simpa using hlen) ?_⟩
      intro i hi
      have := hle (i + 1) (by simpa using Nat.succ_lt_succ hi)
      simpa using this

/-- CL1: for every forged image and window-size array of the same
dimensionality, with every window size no larger than the image size,
`Crop` succeeds, shrinks the sizes to the window sizes, keeps strides
and data type, and relocates the origin to the `GetWindowOrigin`
placement; per dimension the CENTER window origin is
`(imageSize - windowSize)/2` plus one exactly when the image size is
even and the window size is odd, and the MIRROR_CENTER origin is
`(imageSize - windowSize)/2` plus one exactly when the image size is odd
and the window size is even.  Consequently the pixel at the exact center
(index `imageSize/2`, for an odd image size) lands at index
`windowSize/2` (the new center) for odd windows under CENTER, at index
`windowSize/2` (right of center) for even windows under CENTER, and at
index `windowSize/2 - 1` (left of center) for even windows under
MIRROR_CENTER. -/
theorem crop_placement (α : Type) (img : Image α) (ws : List Nat) (loc : CropLocation)
    (hf : img.forged = true)
    (hlen : ws.length = img.sizes.length)
    (hle : ∀ i, i < ws.length → ws.getD i 0 ≤ img.sizes.getD i 0) :
    ∃ img', img.crop ws loc = .ok img' ∧
      img'.sizes = ws ∧ img'.strides = img.strides ∧ img'.dataType = img.dataType ∧
      img'.segment = img.segment ∧ img'.data = img.data ∧
      img'.origin = img.origin + pointerOffset (GetWindowOrigin img.sizes ws loc) img.strides ∧
      (∀ i, i < ws.length →
        (GetWindowOrigin img.sizes ws .CENTER).getD i 0 =
          (img.sizes.getD i 0 - ws.getD i 0) / 2 +
            (if img.sizes.getD i 0 % 2 = 0 ∧ ws.getD i 0 % 2 = 1 then 1 else 0) ∧
        (GetWindowOrigin img.sizes ws .MIRROR_CENTER).getD i 0 =
          (img.sizes.getD i 0 - ws.getD i 0) / 2 +
            (if img.sizes.getD i 0 % 2 = 1 ∧ ws.getD i 0 % 2 = 0 then 1 else 0) ∧
        (img.sizes.getD i 0 % 2 = 1 → 1 ≤ ws.getD i 0 →
          (ws.getD i 0 % 2 = 1 →
            img.sizes.getD i 0 / 2 - (GetWindowOrigin img.sizes ws .CENTER).getD i 0 =
              ws.getD i 0 / 2) ∧
          (ws.getD i 0 % 2 = 0 →
            img.sizes.getD i 0 / 2 - (GetWindowOrigin img.sizes ws .CENTER).getD i 0 =
              ws.getD i 0 / 2 ∧
            img.sizes.getD i 0 / 2 - (GetWindowOrigin img.sizes ws .MIRROR_CENTER).getD i 0 =
              ws.getD i 0 / 2 - 1))) := by
  have hguard : anyGreater ws img.sizes = false :=
    anyGreater_eq_false ws img.sizes hlen hle
  have hcrop : img.crop ws loc = .ok { img with
      origin := img.origin + pointerOffset (GetWindowOrigin img.sizes ws loc) img.strides,
      sizes := ws } := by
    simp [Image.crop, hf, hlen, hguard]
  refine ⟨_, hcrop, rfl, rfl, rfl, rfl, rfl, rfl, ?_⟩
  · intro i hi
    have hi2 : i < img.sizes.length := hlen ▸ hi
    have hC := getD_zipWith_nat
      (fun m w => (m - w) / 2 + (if m % 2 = 0 ∧ w % 2 = 1 then 1 else 0))
      img.sizes ws i hi2 hi
    have hM := getD_zipWith_nat
      (fun m w => (m - w) / 2 + (if m % 2 = 1 ∧ w % 2 = 0 then 1 else 0))
      img.sizes ws i hi2 hi
    have hWM := hle i hi
    refine ⟨by simpa [GetWindowOrigin] using hC, by simpa [GetWindowOrigin] using hM, ?_⟩
    intro hModd hW1
    constructor
    · intro hWodd
      simp only [GetWindowOrigin] at hC ⊢
      rw [hC]
      rw [if_neg (by omega : ¬(img.sizes.getD i 0 % 2 = 0 ∧ ws.getD i 0 % 2 = 1))]
      omega
    · intro hWeven
      simp only [GetWindowOrigin] at hC hM ⊢
      rw [hC, hM]
      rw [if_neg (by omega : ¬(img.sizes.getD i 0 % 2 = 0 ∧ ws.getD i 0 % 2 = 1)),
        if_pos ⟨hModd, hWeven⟩]
      omega

/-- Witness for `crop_placement`: a forged 5 by 4 image with strides
[1, 5], cropped to a 3 by 2 window with CENTER placement. -/
theorem crop_placement_witness :
    (∃ img', (Image.crop (α := Unit)
        ⟨[5, 4], [1, 5], 1, .UINT8, 0, true, false, false, 0, []⟩ [3, 2] .CENTER) = .ok img' ∧
      img'.sizes = [3, 2] ∧ img'.strides = [1, 5] ∧ img'.dataType = .UINT8 ∧
      img'.segment = 0 ∧ img'.data = [] ∧
      img'.origin = 0 + pointerOffset (GetWindowOrigin [5, 4] [3, 2] .CENTER) [1, 5] ∧
      (∀ i, i < ([3, 2] : List Nat).length →
        (GetWindowOrigin [5, 4] [3, 2] .CENTER).getD i 0 =
          (([5, 4] : List Nat).getD i 0 - ([3, 2] : List Nat).getD i 0) / 2 +
            (if ([5, 4] : List Nat).getD i 0 % 2 = 0 ∧ ([3, 2] : List Nat).getD i 0 % 2 = 1
              then 1 else 0) ∧
        (GetWindowOrigin [5, 4] [3, 2] .MIRROR_CENTER).getD i 0 =
          (([5, 4] : List Nat).getD i 0 - ([3, 2] : List Nat).getD i 0) / 2 +
            (if ([5, 4] : List Nat).getD i 0 % 2 = 1 ∧ ([3, 2] : List Nat).getD i 0 % 2 = 0
              then 1 else 0) ∧
        (([5, 4] : List Nat).getD i 0 % 2 = 1 → 1 ≤ ([3, 2] : List Nat).getD i 0 →
          (([3, 2] : List Nat).getD i 0 % 2 = 1 →
            ([5, 4] : List Nat).getD i 0 / 2 -
                (GetWindowOrigin [5, 4] [3, 2] .CENTER).getD i 0 =
              ([3, 2] : List Nat).getD i 0 / 2) ∧
          (([3, 2] : List Nat).getD i 0 % 2 = 0 →
            ([5, 4] : List Nat).getD i 0 / 2 -
                (GetWindowOrigin [5, 4] [3, 2] .CENTER).getD i 0 =
              ([3, 2] : List Nat).getD i 0 / 2 ∧
            ([5, 4] : List Nat).getD i 0 / 2 -
                (GetWindowOrigin [5, 4] [3, 2] .MIRROR_CENTER).getD i 0 =
              ([3, 2] : List Nat).getD i 0 / 2 - 1)))) :=
  crop_placement Unit ⟨[5, 4], [1, 5], 1, .UINT8, 0, true, false, false, 0, []⟩ [3, 2] .CENTER
    (by decide) (by decide) (by decide)

/-! ## Mirror (`src/src/library/image_manip.cpp`, `Image::Mirror`) -/

/-- Metadata effect of `dip::Image::Mirror( dimension )`: requires a
forged image and a valid dimension index; relocates the origin to the
former last element along that dimension
(`origin_ = Pointer( (sizes_[d] - 1) * strides_[d] )`) and negates that
dimension's stride.  (Forged images have every size at least 1, so the
unsigned `sizes_[d] - 1` of the C++ agrees with the integer
subtraction used here.) -/
def Image.mirror (img : Image α) (dim : Nat) : Except DipErr (Image α) :=
  if img.forged = false then .error .notForged
  else if img.sizes.length ≤ dim then .error .illegalDimension
  else .ok { img with
    origin := img.origin + ((img.sizes.getD dim 0 : Int) - 1) * img.strides.getD dim 0,
    strides := img.strides.set dim (-(img.strides.getD dim 0)) }

lemma getD_set_self_int (l : List Int) (i : Nat) (a : Int) (h : i < l.length) :
    (l.set i a).getD i 0 = a := by
  induction l generalizing i with
  | nil => simp at h
  | cons b bs ih =>
    cases i with
    | zero => simp
    | succ n => simpa using ih n (Nat.lt_of_succ_lt_succ h)

lemma set_getD_self_int (l : List Int) (i : Nat) (h : i < l.length) :
    l.set i (l[i]?.getD 0) = l := by
  induction l generalizing i with
  | nil => simp at h
  | cons b bs ih =>
    cases i with
    | zero => simp
    | succ n => simpa using ih n (Nat.lt_of_succ_lt_succ h)

/-- CL7: for every forged image and valid dimension index, applying
`Mirror` to that dimension twice returns the image exactly to its
original state: sizes, strides and origin (and all other fields) are
restored. -/
theorem mirror_mirror_identity (α : Type) (img : Image α) (dim : Nat)
    (hf : img.forged = true) (hdim : dim < img.sizes.length)
    (hsl : img.strides.length = img.sizes.length) :
    ∃ img1, img.mirror dim = .ok img1 ∧ img1.mirror dim = .ok img := by
  have hnot : ¬ img.sizes.length ≤ dim := Nat.not_le.mpr hdim
  have hdim' : dim < img.strides.length := by rw [hsl]; exact hdim
  obtain ⟨sizes, strides, ts, dt, origin, forged, shared, prot, seg, data⟩ := img
  simp only at hf hdim hsl hnot hdim'
  subst hf
  have hget : ((strides.set dim (-(strides.getD dim 0))).getD dim 0) =
      -(strides.getD dim 0) :=
    getD_set_self_int strides dim _ hdim'
  have h1 : (Image.mirror ⟨sizes, strides, ts, dt, origin, true, shared, prot, seg, data⟩ dim)
      = .ok ⟨sizes, strides.set dim (-(strides.getD dim 0)), ts, dt,
          origin + ((sizes.getD dim 0 : Int) - 1) * strides.getD dim 0,
          true, shared, prot, seg, data⟩ := by
    simp [Image.mirror, hnot]
  have hget2 : ∀ x : Int, (strides.set dim x)[dim]?.getD 0 = x := fun x => by
    simpa [List.getD] using getD_set_self_int strides dim x hdim'
  refine ⟨_, h1, ?_⟩
  simp only [Image.mirror, hnot]
  simp [hget2]
  exact set_getD_self_int strides dim hdim'

/-- Witness for `mirror_mirror_identity`: a forged 3 by 2 image with
strides [2, -6], mirrored twice along dimension 1. -/
theorem mirror_mirror_identity_witness :
    ∃ img1, (Image.mirror (α := Unit)
        ⟨[3, 2], [2, -6], 1, .SFLOAT, 4, true, false, false, 0, []⟩ 1) = .ok img1 ∧
      img1.mirror 1 = .ok ⟨[3, 2], [2, -6], 1, .SFLOAT, 4, true, false, false, 0, []⟩ :=
  mirror_mirror_identity Unit ⟨[3, 2], [2, -6], 1, .SFLOAT, 4, true, false, false, 0, []⟩ 1
    (by decide) (by decide) (by decide)

/-! ## ReinterpretCast (`src/src/library/image_manip.cpp`, `Image::ReinterpretCast`) -/

/-- Scan for the first dimension with size greater than 1 and stride 1
(the loop `for( dim = 0; ...; ++dim )` of `Image::ReinterpretCast`);
`none` corresponds to `dim == nDims`. -/
def findStride1Dim : List Nat → List Int → Option Nat
  | m :: ms, s :: ss =>
      if 1 < m ∧ s = 1 then some 0
      else (findStride1Dim ms ss).map (· + 1)
  | _, _ => none

/-- Effect of `dip::Image::ReinterpretCast( dataType )`, including the
exact order of checks and mutations of the C++ (all checks of the
growing-sample-size branch happen before any mutation, per the comment
"Do all checks before we change anything about the image").  An error
carries the state of the image at the moment of the throw.  The C++
divisibility test `strides_[ii] % ratio_s != 0` is modelled as
non-divisibility (the C++ remainder is zero exactly when the divisor
divides), and the divisions are exact at their use sites. -/
def Image.reinterpretCast (img : Image α) (dt : DataType) :
    Except (DipErr × Image α) (Image α) :=
  if img.forged = false then .error (.notForged, img)
  else if dt = img.dataType then .ok img
  else if dt.byteSize = img.dataType.byteSize then .ok { img with dataType := dt }
  else if dt.byteSize < img.dataType.byteSize then
    -- inSize > outSize: the sample is split; never throws.
    match findStride1Dim img.sizes img.strides with
    | none =>
        -- AddSingleton( 0 ); strides_[ 0 ] = 1; then dim = 0 is scaled.
        .ok { img with
          dataType := dt,
          sizes := (img.dataType.byteSize / dt.byteSize) :: img.sizes,
          strides := 1 :: img.strides.map (· * ((img.dataType.byteSize / dt.byteSize : Nat) : Int)),
          tensorStride := img.tensorStride * ((img.dataType.byteSize / dt.byteSize : Nat) : Int) }
    | some d =>
        .ok { img with
          dataType := dt,
          sizes := img.sizes.mapIdx
            (fun i m => if i = d then m * (img.dataType.byteSize / dt.byteSize) else m),
          strides := img.strides.mapIdx
            (fun i s => if i = d then s
              else s * ((img.dataType.byteSize / dt.byteSize : Nat) : Int)),
          tensorStride := img.tensorStride * ((img.dataType.byteSize / dt.byteSize : Nat) : Int) }
  else
    -- inSize < outSize: samples are merged along the stride-1 dimension.
    match findStride1Dim img.sizes img.strides with
    | none => .error (.incompatibleCast, img)
    | some d =>
        if img.sizes.getD d 0 % (dt.byteSize / img.dataType.byteSize) ≠ 0 then
          .error (.incompatibleCast, img)
        else if ∃ i < img.strides.length, i ≠ d ∧
            ¬(((dt.byteSize / img.dataType.byteSize : Nat) : Int) ∣ img.strides.getD i 0) then
          .error (.incompatibleCast, img)
        else
          .ok { img with
            dataType := dt,
            sizes := img.sizes.mapIdx
              (fun i m => if i = d then m / (dt.byteSize / img.dataType.byteSize) else m),
            strides := img.strides.mapIdx
              (fun i s => if i = d then s
                else s / ((dt.byteSize / img.dataType.byteSize : Nat) : Int)),
            tensorStride := img.tensorStride / ((dt.byteSize / img.dataType.byteSize : Nat) : Int) }

/-- Condition under which `ReinterpretCast` fails on a forged image,
written as in the claim: the new sample size is strictly larger and
either no dimension with size greater than 1 has stride 1, or the chosen
dimension's size, or some other dimension's stride, is not evenly
divisible by the byte-size ratio. -/
def reinterpretCastFails (img : Image α) (dt : DataType) : Prop :=
  dt ≠ img.dataType ∧ img.dataType.byteSize < dt.byteSize ∧
    (findStride1Dim img.sizes img.strides = none ∨
      ∃ d, findStride1Dim img.sizes img.strides = some d ∧
        (img.sizes.getD d 0 % (dt.byteSize / img.dataType.byteSize) ≠ 0 ∨
          ∃ i < img.strides.length, i ≠ d ∧
            ¬(((dt.byteSize / img.dataType.byteSize : Nat) : Int) ∣ img.strides.getD i 0)))

set_option maxHeartbeats 1000000 in
/-- CL5: whenever `ReinterpretCast` on a forged image fails, the image is
left completely unchanged (the state carried by the error equals the
input image, so sizes, strides, tensor stride, data type and origin are
all as before the call); and it fails exactly when the new sample size
is strictly larger and either no dimension with size greater than 1 has
stride 1, or the chosen dimension's size or another dimension's stride
is not evenly divisible by the byte-size ratio. -/
theorem reinterpret_cast_no_partial_mutation (α : Type) (img : Image α) (dt : DataType)
    (hf : img.forged = true) :
    (∀ e s, img.reinterpretCast dt = .error (e, s) → s = img) ∧
    ((∃ e s, img.reinterpretCast dt = .error (e, s)) ↔ reinterpretCastFails img dt) := by
  unfold Image.reinterpretCast reinterpretCastFails
  rw [hf]
  constructor
  · intro e s h
    split_ifs at h <;> try (cases h)
    · rfl
    all_goals
      (first
        | rfl
        | (split at h <;> split_ifs at h <;> (try cases h) <;> rfl)
        | (split at h <;> (try cases h) <;> (try rfl) <;>
            split_ifs at h <;> (try cases h) <;> rfl))
  · have hTF : ¬((true : Bool) = false) := by decide
    constructor
    · rintro ⟨e, s, h⟩
      by_cases h1 : dt = img.dataType
      · rw [if_neg hTF, if_pos h1] at h
        cases h
      · by_cases h2 : dt.byteSize = img.dataType.byteSize
        · rw [if_neg hTF, if_neg h1, if_pos h2] at h
          cases h
        · by_cases h3 : dt.byteSize < img.dataType.byteSize
          · rw [if_neg hTF, if_neg h1, if_neg h2, if_pos h3] at h
            rcases hfd : findStride1Dim img.sizes img.strides with _ | d <;>
              simp only [hfd] at h <;> cases h
          · rw [if_neg hTF, if_neg h1, if_neg h2, if_neg h3] at h
            rcases hfd : findStride1Dim img.sizes img.strides with _ | d <;>
              simp only [hfd] at h
            · exact ⟨h1, by omega, Or.inl rfl⟩
            · by_cases hc1 : img.sizes.getD d 0 % (dt.byteSize / img.dataType.byteSize) ≠ 0
              · exact ⟨h1, by omega, Or.inr ⟨d, rfl, Or.inl hc1⟩⟩
              · rw [if_neg hc1] at h
                by_cases hc2 : ∃ i < img.strides.length, i ≠ d ∧
                    ¬(((dt.byteSize / img.dataType.byteSize : Nat) : Int) ∣ img.strides.getD i 0)
                · exact ⟨h1, by omega, Or.inr ⟨d, rfl, Or.inr hc2⟩⟩
                · rw [if_neg hc2] at h
                  cases h
    · rintro ⟨h1, hlt, hrest⟩
      have hne : ¬(dt.byteSize = img.dataType.byteSize) := by omega
      have hnlt : ¬(dt.byteSize < img.dataType.byteSize) := by omega
      refine ⟨.incompatibleCast, img, ?_⟩
      rw [if_neg hTF, if_neg h1, if_neg hne, if_neg hnlt]
      rcases hrest with hnone | ⟨d, hd, hcond⟩
      · simp only [hnone]
      · simp only [hd]
        rcases hcond with hc1 | hc2
        · rw [if_pos hc1]
        · by_cases hc1 : img.sizes.getD d 0 % (dt.byteSize / img.dataType.byteSize) ≠ 0
          · rw [if_pos hc1]
          · rw [if_neg hc1, if_pos hc2]

/-- Witness for `reinterpret_cast_no_partial_mutation`: a forged uint8
image of size [3] with stride [2] (no stride-1 dimension), cast to the
larger uint16 type; the call fails and the error state is the input. -/
theorem reinterpret_cast_no_partial_mutation_witness :
    (∀ e s, (Image.reinterpretCast (α := Unit)
        ⟨[3], [2], 1, .UINT8, 0, true, false, false, 0, []⟩ .UINT16) = .error (e, s) →
      s = ⟨[3], [2], 1, .UINT8, 0, true, false, false, 0, []⟩) ∧
    ((∃ e s, (Image.reinterpretCast (α := Unit)
        ⟨[3], [2], 1, .UINT8, 0, true, false, false, 0, []⟩ .UINT16) = .error (e, s)) ↔
      reinterpretCastFails (α := Unit)
        ⟨[3], [2], 1, .UINT8, 0, true, false, false, 0, []⟩ .UINT16) :=
  reinterpret_cast_no_partial_mutation Unit
    ⟨[3], [2], 1, .UINT8, 0, true, false, false, 0, []⟩ .UINT16 (by decide)

/-! ## Convert (`src/src/library/image_copy.cpp`, `Image::Convert`) -/

/-- Effect of `dip::Image::Convert( dt )` on a numeric image whose
samples are modelled as rationals.  The branch structure follows the
C++: no-op when the type is unchanged; a metadata-only data-type tag
change for bin to uint8 or bin to sint8 ("These can happen without
touching the data, it's OK even if the data is shared. Just change the
flag."); an in-place clamping pass when the image is not shared and the
byte sizes agree; otherwise (protected check first) a reallocating
conversion, modelled abstractly as a clamping pass into a fresh data
segment (the new normal strides of the reallocation are not tracked;
no claim depends on that branch). -/
def Image.convert (img : Image ℚ) (dt : DataType) : Except DipErr (Image ℚ) :=
  if img.forged = false then .error .notForged
  else if dt = img.dataType then .ok img
  else if img.dataType = .BIN ∧ (dt = .UINT8 ∨ dt = .SINT8) then
    .ok { img with dataType := dt }
  else if img.shared = false ∧ dt.byteSize = img.dataType.byteSize then
    .ok { img with
      dataType := dt,
      data := img.data.map (fun v => clamp_cast v dt) }
  else if img.prot then .error .imageProtected
  else .ok { img with
    dataType := dt,
    data := img.data.map (fun v => clamp_cast v dt),
    segment := img.segment + 1,
    shared := false }

/-- CL8: for every forged binary image, `Convert` to uint8 or sint8
changes only the data-type tag: the data segment identity and every
sample are unchanged (no reallocation, no sample read or written), and
the sizes, strides, tensor stride and origin are exactly as before —
also when the data segment is shared. -/
theorem convert_bin_to_8bit_metadata_only (img : Image ℚ) (dt : DataType)
    (hf : img.forged = true) (hb : img.dataType = .BIN)
    (hdt : dt = .UINT8 ∨ dt = .SINT8) :
    ∃ img', img.convert dt = .ok img' ∧
      img' = { img with dataType := dt } ∧
      img'.data = img.data ∧ img'.segment = img.segment ∧
      img'.sizes = img.sizes ∧ img'.strides = img.strides ∧
      img'.tensorStride = img.tensorStride ∧ img'.origin = img.origin ∧
      img'.shared = img.shared ∧ img'.dataType = dt := by
  have hTF : ¬((true : Bool) = false) := by decide
  have h1 : ¬(dt = img.dataType) := by
    rcases hdt with h | h <;> subst h <;> rw [hb] <;> decide
  refine ⟨{ img with dataType := dt }, ?_, rfl, rfl, rfl, rfl, rfl, rfl, rfl, rfl, rfl⟩
  unfold Image.convert
  rw [hf, if_neg hTF, if_neg h1, if_pos ⟨hb, hdt⟩]

/-- Witness for `convert_bin_to_8bit_metadata_only`: a shared, forged
binary image of size [2] converted to uint8. -/
theorem convert_bin_to_8bit_metadata_only_witness :
    ∃ img', (Image.convert ⟨[2], [1], 1, .BIN, 0, true, true, false, 7, [0, 1]⟩ .UINT8) = .ok img' ∧
      img' = { (⟨[2], [1], 1, .BIN, 0, true, true, false, 7, [0, 1]⟩ : Image ℚ) with
        dataType := .UINT8 } ∧
      img'.data = [0, 1] ∧ img'.segment = 7 ∧
      img'.sizes = [2] ∧ img'.strides = [1] ∧
      img'.tensorStride = 1 ∧ img'.origin = 0 ∧
      img'.shared = true ∧ img'.dataType = .UINT8 :=
  convert_bin_to_8bit_metadata_only ⟨[2], [1], 1, .BIN, 0, true, true, false, 7, [0, 1]⟩ .UINT8
    rfl rfl (Or.inl rfl)

/-! ## SwapBytesInSample (`src/src/library/image_copy.cpp`,
`Image::SwapBytesInSample` and `InternSwapBytesInSample`) -/

/-- One iteration of the loop of `InternSwapBytesInSample`:
`std::swap( c[ ii ], c[ n - 1 - ii ] )` on the byte list of one sample
(both reads happen before the writes, as in `std::swap`). -/
def swapStep (c : List Nat) (n ii : Nat) : List Nat :=
  (c.set ii (c.getD (n - 1 - ii) 0)).set (n - 1 - ii) (c.getD ii 0)

/-- The full loop of `InternSwapBytesInSample` over one sample:
`for( ii = 0; ii < n / 2; ++ii ) std::swap( c[ii], c[n-1-ii] )`, which
reverses the byte order of the `n`-byte sample. -/
def swapBytes (c : List Nat) (n : Nat) : List Nat :=
  (List.range (n / 2)).foldl (fun cc ii => swapStep cc n ii) c

/-- Effect of `dip::Image::SwapBytesInSample` on an image whose samples
are modelled as byte lists.  The C++ returns immediately for 1-byte
sample types; otherwise it views the data through
`TensorToSpatial`/`SplitComplex`/`ReinterpretCast` as unsigned integers
of the ORIGINAL type's byte size (the `switch` is on
`DataType().SizeOf()` of the image itself) and byte-reverses each such
unit in place; the net per-sample effect is the byte reversal of each
`SizeOf`-byte sample block (for the 8-byte complex type the reversed
block spans both float components).  Sizes 2, 4 and 8 are handled; any
other size lands in the defensive `default: DIP_THROW( E::NOT_IMPLEMENTED )`. -/
def Image.swapBytesInSample (img : Image (List Nat)) : Except DipErr (Image (List Nat)) :=
  if img.forged = false then .error .notForged
  else if img.dataType.byteSize = 1 then .ok img
  else if img.dataType.byteSize = 2 ∨ img.dataType.byteSize = 4 ∨ img.dataType.byteSize = 8 then
    .ok { img with data := img.data.map (fun c => swapBytes c img.dataType.byteSize) }
  else .error .notImplemented

lemma swapBytes_swapBytes (c : List Nat) (n : Nat)
    (hn : n = 2 ∨ n = 4 ∨ n = 8) (hc : c.length = n) :
    swapBytes (swapBytes c n) n = c := by
  rcases hn with h | h | h <;> subst h
  · match c, hc with
    | [b0, b1], _ => rfl
  · match c, hc with
    | [b0, b1, b2, b3], _ => rfl
  · match c, hc with
    | [b0, b1, b2, b3, b4, b5, b6, b7], _ => rfl

lemma map_self_id (l : List β) (f : β → β) (h : ∀ c ∈ l, f c = c) : l.map f = l := by
  induction l with
  | nil => rfl
  | cons a as ih =>
    simp only [List.map_cons, h a (by simp)]
    rw [ih (fun c hc => h c (by simp [hc]))]

/-- CL10: for every forged image whose sample type has a supported size
(1, 2, 4 or 8 bytes) and whose samples each hold exactly that many
bytes, applying `SwapBytesInSample` twice leaves every sample
byte-for-byte identical to the original (the whole image is restored),
and for 1-byte sample types a single application changes nothing at
all. -/
theorem swap_bytes_in_sample_involution (img : Image (List Nat))
    (hf : img.forged = true)
    (hsz : img.dataType.byteSize = 1 ∨ img.dataType.byteSize = 2 ∨
      img.dataType.byteSize = 4 ∨ img.dataType.byteSize = 8)
    (hw : ∀ c ∈ img.data, c.length = img.dataType.byteSize) :
    (∃ img1, img.swapBytesInSample = .ok img1 ∧ img1.swapBytesInSample = .ok img) ∧
    (img.dataType.byteSize = 1 → img.swapBytesInSample = .ok img) := by
  have hTF : ¬((true : Bool) = false) := by decide
  rcases hsz with h1 | hn
  · constructor
    · refine ⟨img, ?_, ?_⟩ <;>
        (unfold Image.swapBytesInSample; rw [hf, if_neg hTF, if_pos h1])
    · intro _
      unfold Image.swapBytesInSample
      rw [hf, if_neg hTF, if_pos h1]
  · have hne1 : ¬(img.dataType.byteSize = 1) := by omega
    constructor
    · refine ⟨{ img with
        data := img.data.map (fun c => swapBytes c img.dataType.byteSize) }, ?_, ?_⟩
      · unfold Image.swapBytesInSample
        rw [hf, if_neg hTF, if_neg hne1, if_pos hn]
      · unfold Image.swapBytesInSample
        rw [hf, if_neg hTF, if_neg hne1, if_pos hn]
        simp only [Except.ok.injEq]
        have hdata : (img.data.map (fun c => swapBytes c img.dataType.byteSize)).map
            (fun c => swapBytes c img.dataType.byteSize) = img.data := by
          rw [List.map_map]
          exact map_self_id img.data _
            (fun c hc => swapBytes_swapBytes c img.dataType.byteSize hn (hw c hc))
        cases img with
        | mk sizes strides ts dtv origin forged shared prot seg dat =>
          simp only at hdata ⊢
          rw [hdata]
          have hfv : forged = true := hf
          rw [hfv]
    · intro h1
      exact absurd h1 hne1

/-- Witness for `swap_bytes_in_sample_involution`: a forged uint16 image
with two 2-byte samples. -/
theorem swap_bytes_in_sample_involution_witness :
    (∃ img1, (Image.swapBytesInSample
        ⟨[2], [1], 1, .UINT16, 0, true, false, false, 0, [[1, 2], [3, 4]]⟩) = .ok img1 ∧
      img1.swapBytesInSample =
        .ok ⟨[2], [1], 1, .UINT16, 0, true, false, false, 0, [[1, 2], [3, 4]]⟩) ∧
    ((DataType.UINT16.byteSize = 1) → (Image.swapBytesInSample
        ⟨[2], [1], 1, .UINT16, 0, true, false, false, 0, [[1, 2], [3, 4]]⟩) =
      .ok ⟨[2], [1], 1, .UINT16, 0, true, false, false, 0, [[1, 2], [3, 4]]⟩) :=
  swap_bytes_in_sample_involution
    ⟨[2], [1], 1, .UINT16, 0, true, false, false, 0, [[1, 2], [3, 4]]⟩
    rfl (by decide) (by decide)

/-! ## CopyTo, mask and offset forms (`src/src/library/image_copy.cpp`) -/

/-- The joint iteration of the mask form of `dip::CopyTo`: walk the
destination pixels together with the destination mask; whenever the
mask is set, demand the next source pixel (`DIP_THROW_IF( !srcIt,
E::SIZES_DONT_MATCH )`) and copy it; after the destination is
exhausted, demand that the source is too (`DIP_THROW_IF( srcIt,
E::SIZES_DONT_MATCH )`).  Pixels are abstract values; the three C++
variants (same type block copy, per-tensor-element copy, converting
assignment) all share this control flow. -/
def copyToMaskLoop (src dest : List α) (mask : List Bool) : Except DipErr (List α) :=
  match dest, mask with
  | [], [] => if src.isEmpty then .ok [] else .error .sizesDontMatch
  | d :: ds, m :: ms =>
      if m then
        match src with
        | [] => .error .sizesDontMatch
        | v :: vs => (copyToMaskLoop vs ds ms).map (fun r => v :: r)
      else (copyToMaskLoop src ds ms).map (fun r => d :: r)
  | _, _ => .error .maskNotValid

/-- The mask form of `dip::CopyTo( src, dest, destMask )`, after the
forged/tensor-element guards of the claim's hypotheses:
`destMask.CheckIsMask( dest.Sizes(), ... )` demands that the mask have
the destination's sizes (modelled as equal pixel counts), then the
joint iteration copies source pixels into the set destination
positions. -/
def CopyToMask (src dest : List α) (mask : List Bool) : Except DipErr (List α) :=
  if mask.length ≠ dest.length then .error .maskNotValid
  else copyToMaskLoop src dest mask

/-- Scatter of the offset form of `dip::CopyTo`: write the i-th source
pixel at the i-th destination offset (offsets are linear sample offsets;
the C++ does not bounds-check them, and valid calls keep them in
range). -/
def scatterAt : List α → List α → List Nat → List α
  | v :: vs, dst, o :: os => scatterAt vs (dst.set o v) os
  | _, dst, _ => dst

/-- The offset form of `dip::CopyTo( src, dest, destOffsets )`: an empty
offset list is `E::ARRAY_PARAMETER_EMPTY`; a source pixel count that
differs from the offset count is a size-mismatch error ("Number of
pixels does not match offset list"); otherwise source and offsets are
consumed in lockstep. -/
def CopyToOffsets (src dest : List α) (offsets : List Nat) : Except DipErr (List α) :=
  if offsets.isEmpty then .error .arrayParameterEmpty
  else if src.length ≠ offsets.length then .error .sizesDontMatch
  else .ok (scatterAt src dest offsets)

lemma copyToMaskLoop_error_iff (src dest : List α) (mask : List Bool)
    (hm : mask.length = dest.length) :
    ((∃ e, copyToMaskLoop src dest mask = .error e) ↔ mask.countP id ≠ src.length) ∧
    (∀ e, copyToMaskLoop src dest mask = .error e → e = .sizesDontMatch) := by
  induction dest generalizing src mask with
  | nil =>
    cases mask with
    | nil =>
      have hunf : copyToMaskLoop src ([] : List α) [] =
          if src.isEmpty then .ok [] else .error .sizesDontMatch := rfl
      rw [hunf]
      cases src with
      | nil => simp
      | cons v vs => simp
    | cons m ms => simp at hm
  | cons d ds ih =>
    cases mask with
    | nil => simp at hm
    | cons m ms =>
      have hm' : ms.length = ds.length := by simpa using hm
      cases m with
      | false =>
        have hunf : copyToMaskLoop src (d :: ds) (false :: ms) =
            Except.map (fun r => d :: r) (copyToMaskLoop src ds ms) := rfl
        have hcnt : List.countP id (false :: ms) = List.countP id ms := by
          simp [List.countP_cons]
        obtain ⟨ih1, ih2⟩ := ih src ms hm'
        rw [hunf, hcnt]
        constructor
        · rw [← ih1]
          cases h : copyToMaskLoop src ds ms <;> simp [h, Except.map]
        · intro e he
          cases h : copyToMaskLoop src ds ms <;> rw [h] at he <;>
            simp [Except.map] at he
          subst he
          exact ih2 _ h
      | true =>
        have hcnt : List.countP id (true :: ms) = List.countP id ms + 1 := by
          simp [List.countP_cons]
        cases src with
        | nil =>
          have hunf : copyToMaskLoop ([] : List α) (d :: ds) (true :: ms) =
              .error .sizesDontMatch := rfl
          rw [hunf, hcnt]
          constructor
          · exact ⟨fun _ => by simp, fun _ => ⟨.sizesDontMatch, rfl⟩⟩
          · intro e he
            cases he
            rfl
        | cons v vs =>
          have hunf : copyToMaskLoop (v :: vs) (d :: ds) (true :: ms) =
              Except.map (fun r => v :: r) (copyToMaskLoop vs ds ms) := rfl
          obtain ⟨ih1, ih2⟩ := ih vs ms hm'
          have hiff : (List.countP id ms + 1 ≠ (v :: vs).length) ↔
              (List.countP id ms ≠ vs.length) := by simp
          rw [hunf, hcnt, hiff, ← ih1]
          constructor
          · cases h : copyToMaskLoop vs ds ms <;> simp [h, Except.map]
          · intro e he
            cases h : copyToMaskLoop vs ds ms <;> rw [h] at he <;>
              simp [Except.map] at he
            subst he
            exact ih2 _ h

/-- CL2: for every source and destination pixel sequence with a mask of
the destination's pixel count, the mask form of `CopyTo` raises
`SizeMismatch` exactly when the number of set mask pixels differs (in
either direction) from the source pixel count, and every error it
raises is that size mismatch; the offset form raises exactly when the
offset list is empty or the source pixel count differs from the offset
count.  In no case is a mismatched scatter silently truncated. -/
theorem copy_to_lockstep (α : Type) (src dest : List α) (mask : List Bool)
    (offsets : List Nat) (hm : mask.length = dest.length) :
    ((∃ e, CopyToMask src dest mask = .error e) ↔ mask.countP id ≠ src.length) ∧
    (∀ e, CopyToMask src dest mask = .error e → e = .sizesDontMatch) ∧
    ((∃ e, CopyToOffsets src dest offsets = .error e) ↔
      (offsets.isEmpty ∨ src.length ≠ offsets.length)) := by
  obtain ⟨h1, h2⟩ := copyToMaskLoop_error_iff src dest mask hm
  refine ⟨?_, ?_, ?_⟩
  · unfold CopyToMask
    rw [if_neg (by omega : ¬(mask.length ≠ dest.length))]
    exact h1
  · intro e he
    unfold CopyToMask at he
    rw [if_neg (by omega : ¬(mask.length ≠ dest.length))] at he
    exact h2 e he
  · unfold CopyToOffsets
    by_cases ho : offsets.isEmpty
    · simp [ho]
    · rw [if_neg ho]
      by_cases hlen : src.length ≠ offsets.length
      · simp [hlen, ho]
      · rw [if_neg hlen]
        simp [ho, hlen]

/-- Witness for `copy_to_lockstep`: a 2-pixel source, a 3-pixel
destination with a 3-entry mask having only one set pixel (mask form
must fail), and a 2-entry offset list (offset form succeeds). -/
theorem copy_to_lockstep_witness :
    ((∃ e, CopyToMask [10, 20] [0, 0, 0] [false, true, false] = .error e) ↔
      ([false, true, false].countP id ≠ ([10, 20] : List Nat).length)) ∧
    (∀ e, CopyToMask [10, 20] [0, 0, 0] [false, true, false] = .error e →
      e = .sizesDontMatch) ∧
    ((∃ e, CopyToOffsets [10, 20] [0, 0, 0] [2, 0] = .error e) ↔
      (([2, 0] : List Nat).isEmpty ∨ ([10, 20] : List Nat).length ≠ ([2, 0] : List Nat).length)) :=
  copy_to_lockstep Nat [10, 20] [0, 0, 0] [false, true, false] [2, 0] (by decide)

/-! ## Chain codes (`src/src/measurement/chain_code.cpp`) -/

/-- A chain code: start coordinate, the ordered direction codes (each
with its is-along-image-border flag, `dip::ChainCode::Code`), and the
connectivity flag (`is8connected`). -/
structure ChainCode where
  startX : Int
  startY : Int
  codes : List (Nat × Bool)
  is8 : Bool
deriving DecidableEq, Repr

/-- Modelled from the spec: the `deltas8` step table of the chain-code
header (the header is not among the given sources).  Code k is a unit
step at angle k times 45 degrees, with the y axis pointing down, so that
`deltas8[2k] + deltas8[2k+2 mod 8] = deltas8[2k+1]` (a 4-connected code
pair merged by `ConvertTo8Connected` takes the matching diagonal step).
No theorem below depends on the concrete entries. -/
def deltas8 : Nat → Int × Int
  | 0 => (1, 0)
  | 1 => (1, -1)
  | 2 => (0, -1)
  | 3 => (-1, -1)
  | 4 => (-1, 0)
  | 5 => (-1, 1)
  | 6 => (0, 1)
  | _ => (1, 1)

/-- Modelled from the spec: the `deltas4` step table; code k of a
4-connected chain takes the same step as 8-connected code 2k. -/
def deltas4 (k : Nat) : Int × Int := deltas8 (2 * k)

/-- The merging loop of `ChainCode::ConvertTo8Connected` (the `for( ;
ii < codes.size() - 1; ++ii )` loop plus the final `if(( ii <
codes.size() ) && !skipLast )` push), as a recursion over the remaining
codes: a pair `(cur, next)` with `next == (cur+1) % 4` becomes the one
diagonal code `cur*2+1` (consuming both), otherwise `cur` is doubled;
a final unpaired code is doubled unless `skipLast` is set (it was
already consumed by the wrap-around merge). -/
def mergeLoop (skipLast : Bool) : List (Nat × Bool) → List (Nat × Bool)
  | [] => []
  | [c] => if skipLast then [] else [(c.1 * 2, c.2)]
  | c :: c2 :: rest =>
      if (c.1 + 1) % 4 = c2.1 then (c.1 * 2 + 1, false) :: mergeLoop skipLast rest
      else (c.1 * 2, c.2) :: mergeLoop skipLast (c2 :: rest)

/-- `dip::ChainCode::ConvertTo8Connected`: an already 8-connected chain
is returned as is; a chain of fewer than 3 codes is doubled code by
code; otherwise, if the last code followed by the first forms a
diagonal pair, that wrap-around pair is merged first (adjusting the
start by `deltas4[cur]` and skipping the last code at the end), and the
loop processes the rest from index 1; without a wrap-around merge the
loop processes all codes from index 0. -/
def ChainCode.convertTo8Connected (cc : ChainCode) : ChainCode :=
  if cc.is8 then cc
  else if cc.codes.length < 3 then
    { cc with is8 := true, codes := cc.codes.map (fun c => (c.1 * 2, c.2)) }
  else if ((cc.codes.getLastD (0, false)).1 + 1) % 4 = (cc.codes.headD (0, false)).1 then
    { cc with
      is8 := true,
      startX := cc.startX - (deltas4 (cc.codes.getLastD (0, false)).1).1,
      startY := cc.startY - (deltas4 (cc.codes.getLastD (0, false)).1).2,
      codes := ((cc.codes.getLastD (0, false)).1 * 2 + 1, false) :: mergeLoop true cc.codes.tail }
  else
    { cc with is8 := true, codes := mergeLoop false cc.codes }

/-- The conversion described by the spec sentence for CL3, written
independently of the implementation: greedily merge consecutive pairs
`(cur, next)` with `next = (cur+1) mod 4` into the diagonal code
`cur*2+1`, doubling unmerged codes. -/
def greedyMerge : List (Nat × Bool) → List (Nat × Bool)
  | [] => []
  | [c] => [(c.1 * 2, c.2)]
  | c :: c2 :: rest =>
      if (c.1 + 1) % 4 = c2.1 then (c.1 * 2 + 1, false) :: greedyMerge rest
      else (c.1 * 2, c.2) :: greedyMerge (c2 :: rest)

/-- The full spec-side conversion for CL3: first check the wrap-around
pair (last code followed by first); if it is a diagonal pair, merge it
(consuming both the last and the first code) and greedily merge the
remainder; otherwise greedily merge the whole sequence. -/
def specMerge8 (codes : List (Nat × Bool)) : List (Nat × Bool) :=
  if codes = [] then []
  else if ((codes.getLastD (0, false)).1 + 1) % 4 = (codes.headD (0, false)).1 then
    ((codes.getLastD (0, false)).1 * 2 + 1, false) :: greedyMerge codes.tail.dropLast
  else greedyMerge codes

/-- Counterexample for CL3 as stated: the 4-connected chain [2, 3]
contains the diagonal pair (2, 3) (since (2+1) mod 4 = 3), so the
sequence obtained by merging is the single diagonal code [5]; but
`ConvertTo8Connected` doubles chains of fewer than 3 codes without any
merging and returns [4, 6]. -/
theorem convert_to_8_counterexample :
    (ChainCode.convertTo8Connected ⟨0, 0, [(2, false), (3, false)], false⟩).codes =
      [(4, false), (6, false)] ∧
    specMerge8 [(2, false), (3, false)] = [(5, false)] ∧
    (ChainCode.convertTo8Connected ⟨0, 0, [(2, false), (3, false)], false⟩).codes ≠
      specMerge8 [(2, false), (3, false)] := by
  refine ⟨rfl, rfl, ?_⟩
  decide

lemma mergeLoop_false_eq_greedy (l : List (Nat × Bool)) :
    mergeLoop false l = greedyMerge l := by
  refine mergeLoop.induct false (fun t => mergeLoop false t = greedyMerge t)
    rfl (fun c h => absurd h (by decide)) (fun c _ => rfl) ?_ ?_ l
  · intro c c2 rest h ih
    simp [mergeLoop, greedyMerge, h, ih]
  · intro c c2 rest h ih
    simp [mergeLoop, greedyMerge, h, ih]

lemma mergeLoop_true_eq_greedy_dropLast (l : List (Nat × Bool))
    (hlast : ∀ pre a b, l = pre ++ [a, b] → ¬((a.1 + 1) % 4 = b.1)) :
    mergeLoop true l = greedyMerge l.dropLast := by
  induction l using mergeLoop.induct true with
  | case1 => rfl
  | case2 c _ => rfl
  | case3 c h => exact absurd rfl h
  | case4 c c2 rest h ih =>
    cases rest with
    | nil => exact absurd h (hlast [] c c2 rfl)
    | cons r rs =>
      have hd : (c :: c2 :: r :: rs).dropLast = c :: c2 :: (r :: rs).dropLast := by simp
      have ih' := ih (fun pre a b heq => hlast (c :: c2 :: pre) a b (by simp [heq]))
      have hstep : mergeLoop true (c :: c2 :: r :: rs) =
          (c.1 * 2 + 1, false) :: mergeLoop true (r :: rs) := by
        rw [mergeLoop, if_pos h]
      have hg : greedyMerge (c :: c2 :: (r :: rs).dropLast) =
          (c.1 * 2 + 1, false) :: greedyMerge (r :: rs).dropLast := by
        rw [greedyMerge, if_pos h]
      rw [hd, hstep, hg, ih']
  | case5 c c2 rest h ih =>
    cases rest with
    | nil =>
      simp [mergeLoop, greedyMerge, h]
    | cons r rs =>
      have hd : (c :: c2 :: r :: rs).dropLast = c :: (c2 :: r :: rs).dropLast := by simp
      have hd2 : (c2 :: r :: rs).dropLast = c2 :: (r :: rs).dropLast := by simp
      have ih' := ih (fun pre a b heq => hlast (c :: pre) a b (by simp [heq]))
      rw [hd2] at ih'
      have hstep : mergeLoop true (c :: c2 :: r :: rs) =
          (c.1 * 2, c.2) :: mergeLoop true (c2 :: r :: rs) := by
        rw [mergeLoop, if_neg h]
      have hg : greedyMerge (c :: c2 :: (r :: rs).dropLast) =
          (c.1 * 2, c.2) :: greedyMerge (c2 :: (r :: rs).dropLast) := by
        rw [greedyMerge, if_neg h]
      rw [hd, hd2, hstep, hg, ih']

/-- CL3 (amended): chain codes of fewer than 3 codes are doubled code by
code with no merging; for every 4-connected chain code of at least 3
codes in which the wrap-around pair (last, first) and the final
adjacent pair (second-to-last, last) are not both diagonal steps,
`ConvertTo8Connected` produces exactly the 8-connected sequence obtained
by first merging the wrap-around pair when it is a diagonal step
(checking the last code followed by the first) and then greedily
merging left to right, with `next = (cur+1) mod 4` pairs becoming the
odd code `cur*2+1` and every unmerged code doubling to `cur*2`. -/
theorem convert_to_8_greedy_merge (cc : ChainCode) (h8 : cc.is8 = false) :
    (cc.codes.length < 3 →
      (cc.convertTo8Connected).codes = cc.codes.map (fun c => (c.1 * 2, c.2))) ∧
    (3 ≤ cc.codes.length →
      ¬((((cc.codes.getLastD (0, false)).1 + 1) % 4 = (cc.codes.headD (0, false)).1) ∧
        (((cc.codes.dropLast.getLastD (0, false)).1 + 1) % 4 =
          (cc.codes.getLastD (0, false)).1)) →
      (cc.convertTo8Connected).codes = specMerge8 cc.codes) := by
  have hFT : ¬((false : Bool) = true) := by decide
  constructor
  · intro hlt
    unfold ChainCode.convertTo8Connected
    rw [h8, if_neg hFT, if_pos hlt]
  · intro h3 hnot
    have hne : cc.codes ≠ [] := by
      intro h
      rw [h] at h3
      simp at h3
    unfold ChainCode.convertTo8Connected
    rw [h8, if_neg hFT, if_neg (by omega : ¬(cc.codes.length < 3))]
    by_cases hwrap :
        ((cc.codes.getLastD (0, false)).1 + 1) % 4 = (cc.codes.headD (0, false)).1
    · rw [if_pos hwrap]
      unfold specMerge8
      rw [if_neg hne, if_pos hwrap]
      have hfinal : ¬(((cc.codes.dropLast.getLastD (0, false)).1 + 1) % 4 =
          (cc.codes.getLastD (0, false)).1) := fun hf => hnot ⟨hwrap, hf⟩
      have hlast : ∀ pre a b, cc.codes.tail = pre ++ [a, b] → ¬((a.1 + 1) % 4 = b.1) := by
        intro pre a b heq hab
        cases hc : cc.codes with
        | nil => exact hne hc
        | cons x xs =>
          rw [hc] at heq
          simp only [List.tail_cons] at heq
          have hcodes : cc.codes = (x :: pre ++ [a]) ++ [b] := by
            rw [hc, heq]
            simp
          have hlastb : cc.codes.getLastD (0, false) = b := by
            rw [hcodes]
            exact List.getLastD_concat _ _ _
          have hdrop : cc.codes.dropLast = (x :: pre) ++ [a] := by
            rw [hcodes]
            rw [List.dropLast_concat]
          have hlasta : cc.codes.dropLast.getLastD (0, false) = a := by
            rw [hdrop]
            exact List.getLastD_concat _ _ _
          rw [hlasta, hlastb] at hfinal
          exact hfinal hab
      have hm := mergeLoop_true_eq_greedy_dropLast cc.codes.tail hlast
      simp only [hm]
    · rw [if_neg hwrap]
      unfold specMerge8
      rw [if_neg hne, if_neg hwrap]
      simp only [mergeLoop_false_eq_greedy]

/-- Witness for `convert_to_8_greedy_merge`: the closed 4-connected
chain [0, 0, 2, 2] (a one-pixel-wide two-pixel line), whose wrap-around
pair (2, 0) is not a diagonal step. -/
theorem convert_to_8_greedy_merge_witness :
    ((ChainCode.mk 0 0 [(0, false), (0, false), (2, false), (2, false)] false).codes.length < 3 →
      ((ChainCode.mk 0 0 [(0, false), (0, false), (2, false), (2, false)]
        false).convertTo8Connected).codes =
        [(0, false), (0, false), (2, false), (2, false)].map (fun c => (c.1 * 2, c.2))) ∧
    (3 ≤ (ChainCode.mk 0 0 [(0, false), (0, false), (2, false), (2, false)]
        false).codes.length →
      ¬(((([(0, false), (0, false), (2, false), (2, false)] :
            List (Nat × Bool)).getLastD (0, false)).1 + 1) % 4 =
          (([(0, false), (0, false), (2, false), (2, false)] :
            List (Nat × Bool)).headD (0, false)).1 ∧
        ((([(0, false), (0, false), (2, false), (2, false)] :
            List (Nat × Bool)).dropLast.getLastD (0, false)).1 + 1) % 4 =
          (([(0, false), (0, false), (2, false), (2, false)] :
            List (Nat × Bool)).getLastD (0, false)).1) →
      ((ChainCode.mk 0 0 [(0, false), (0, false), (2, false), (2, false)]
        false).convertTo8Connected).codes =
        specMerge8 [(0, false), (0, false), (2, false), (2, false)]) :=
  convert_to_8_greedy_merge
    (ChainCode.mk 0 0 [(0, false), (0, false), (2, false), (2, false)] false) rfl

/-- The pixel-edge midpoint offsets table `pts` of `ChainCode::Polygon`
(N, W, S, E midpoints).  All polygon coordinates in this embedding are
scaled by 2 so that the half-integer vertex coordinates of the C++
(doubles with fractional part .5, exact in floating point) become
integers: `pts[0] = (0.0, -0.5)` is (0, -1), and so on. -/
def polyPts : Nat → Int × Int
  | 0 => (0, -1)
  | 1 => (-1, 0)
  | 2 => (0, 1)
  | _ => (1, 0)

/-- The helper `DecrementMod4` of `chain_code.cpp`. -/
def decrementMod4 (k : Nat) : Nat := if k = 0 then 3 else k - 1

/-- The corner indices emitted by one iteration of the `Polygon` loop
for previous code `m` and current code `n`: `k = (m+1)/2` wrapped to 0
at 4, `l = n/2 - k (mod 4)`; the vertex at `pts[k]` is always emitted,
then 0 to 3 further corners at successively decremented `k`, following
the nested `if( l != 0 ) / if( l <= 2 ) / if( l == 1 )` of the C++. -/
def polyStepKs (m n : Nat) : List Nat :=
  let k1 := if (m + 1) / 2 = 4 then 0 else (m + 1) / 2
  let l1 := (if n / 2 < k1 then n / 2 + 4 else n / 2) - k1
  if l1 = 0 then [k1]
  else
    if l1 ≤ 2 then
      if l1 = 1 then
        [k1, decrementMod4 k1, decrementMod4 (decrementMod4 k1),
          decrementMod4 (decrementMod4 (decrementMod4 k1))]
      else [k1, decrementMod4 k1, decrementMod4 (decrementMod4 k1)]
    else [k1, decrementMod4 k1]

/-- The main loop of `ChainCode::Polygon`: fold over the codes carrying
the previous code `m` and the current position (scaled by 2), emitting
the corner vertices of each step and advancing by `deltas8[n]`. -/
def polygonLoop : Nat → Int × Int → List (Nat × Bool) → List (Int × Int)
  | _, _, [] => []
  | m, pos, (n, _) :: rest =>
      (polyStepKs m n).map (fun k => ((polyPts k).1 + pos.1, (polyPts k).2 + pos.2)) ++
        polygonLoop n (pos.1 + 2 * (deltas8 n).1, pos.2 + 2 * (deltas8 n).2) rest

/-- The body of `ChainCode::Polygon` on an (already 8-connected) chain:
a 1-pixel object (no codes) is the special-cased unit square
`pts[0], pts[3], pts[2], pts[1]` around the start; otherwise the loop
runs with `m` initialized to the last code. -/
def polygonCore (cc8 : ChainCode) : List (Int × Int) :=
  if cc8.codes = [] then
    [ ((polyPts 0).1 + 2 * cc8.startX, (polyPts 0).2 + 2 * cc8.startY),
      ((polyPts 3).1 + 2 * cc8.startX, (polyPts 3).2 + 2 * cc8.startY),
      ((polyPts 2).1 + 2 * cc8.startX, (polyPts 2).2 + 2 * cc8.startY),
      ((polyPts 1).1 + 2 * cc8.startX, (polyPts 1).2 + 2 * cc8.startY) ]
  else
    polygonLoop (cc8.codes.getLastD (0, false)).1 (2 * cc8.startX, 2 * cc8.startY) cc8.codes

/-- `dip::ChainCode::Polygon`: rejects a 1-code chain ("Received a weird
chain code as input (N==1)", checked on the chain itself before any
conversion), converts a 4-connected chain via `ConvertTo8Connected`,
then computes the vertex list. -/
def ChainCode.polygon (cc : ChainCode) : Except DipErr (List (Int × Int)) :=
  if cc.codes.length = 1 then .error .weirdChainCode
  else .ok (polygonCore (if cc.is8 then cc else cc.convertTo8Connected))

lemma convertTo8_is8 (cc : ChainCode) (h8 : cc.is8 = false) :
    (cc.convertTo8Connected).is8 = true := by
  have hFT : ¬((false : Bool) = true) := by decide
  unfold ChainCode.convertTo8Connected
  rw [h8, if_neg hFT]
  split
  · rfl
  · split <;> rfl

lemma mergeLoop_false_len_pos (l : List (Nat × Bool)) (h : 1 ≤ l.length) :
    1 ≤ (mergeLoop false l).length := by
  match l, h with
  | [c], _ => simp [mergeLoop]
  | c :: c2 :: rest, _ =>
    rw [mergeLoop]
    split <;> simp

lemma mergeLoop_len_pos (sk : Bool) (l : List (Nat × Bool)) (h : 2 ≤ l.length) :
    1 ≤ (mergeLoop sk l).length := by
  match l, h with
  | c :: c2 :: rest, _ =>
    rw [mergeLoop]
    split <;> simp

lemma mergeLoop_false_len_two (l : List (Nat × Bool)) (h : 3 ≤ l.length) :
    2 ≤ (mergeLoop false l).length := by
  match l, h with
  | c :: c2 :: r :: rs, _ =>
    rw [mergeLoop]
    split
    · have := mergeLoop_false_len_pos (r :: rs) (by simp)
      simp only [List.length_cons]
      omega
    · have := mergeLoop_false_len_pos (c2 :: r :: rs) (by simp)
      simp only [List.length_cons]
      omega

lemma convert_length_one_iff (cc : ChainCode) (h8 : cc.is8 = false) :
    (cc.convertTo8Connected).codes.length = 1 ↔ cc.codes.length = 1 := by
  have hFT : ¬((false : Bool) = true) := by decide
  by_cases hlt : cc.codes.length < 3
  · have hcodes : (cc.convertTo8Connected).codes = cc.codes.map (fun c => (c.1 * 2, c.2)) := by
      unfold ChainCode.convertTo8Connected
      rw [h8, if_neg hFT, if_pos hlt]
    rw [hcodes, List.length_map]
  · have h3 : 3 ≤ cc.codes.length := by omega
    have h2 : 2 ≤ (cc.convertTo8Connected).codes.length := by
      unfold ChainCode.convertTo8Connected
      rw [h8, if_neg hFT, if_neg hlt]
      split
      · have htl : 2 ≤ cc.codes.tail.length := by
          rw [List.length_tail]
          omega
        have := mergeLoop_len_pos true cc.codes.tail htl
        simp only [List.length_cons]
        omega
      · exact mergeLoop_false_len_two cc.codes h3
    constructor
    · intro h
      omega
    · intro h
      omega

/-- CL4: for every 4-connected chain code, the polygon computed by
`ChainCode::Polygon` directly from it and the polygon computed from the
same boundary's 8-connected chain code (the output of
`ConvertTo8Connected`) are identical, vertex for vertex: `Polygon`
itself converts a 4-connected chain to 8-connected before tracing, and
the 1-code rejection fires on exactly the same chains on both sides. -/
theorem polygon_4_8_equivalence (cc : ChainCode) (h8 : cc.is8 = false) :
    cc.polygon = (cc.convertTo8Connected).polygon := by
  have hFT : ¬((false : Bool) = true) := by decide
  have his8 := convertTo8_is8 cc h8
  unfold ChainCode.polygon
  rw [h8, his8, if_neg hFT, if_pos rfl]
  by_cases h1 : cc.codes.length = 1
  · rw [if_pos h1, if_pos ((convert_length_one_iff cc h8).mpr h1)]
  · rw [if_neg h1, if_neg (fun hc => h1 ((convert_length_one_iff cc h8).mp hc))]

/-- Witness for `polygon_4_8_equivalence`: the closed 4-connected unit
square chain [0, 1, 2, 3]. -/
theorem polygon_4_8_equivalence_witness :
    (ChainCode.mk 0 0 [(0, false), (1, false), (2, false), (3, false)] false).polygon =
      ((ChainCode.mk 0 0 [(0, false), (1, false), (2, false), (3, false)]
        false).convertTo8Connected).polygon :=
  polygon_4_8_equivalence
    (ChainCode.mk 0 0 [(0, false), (1, false), (2, false), (3, false)] false) rfl

/-! ## Parabolic morphology (`src/src/morphology/basic.cpp`,
`ParabolicMorphologyLineFilter`, dilation branch).  Sample values are
exact rationals; the C++ runs the same arithmetic in floating point. -/

/-- One comparison of the backward-search loops of
`ParabolicMorphologyLineFilter::Filter` (dilation): candidate at
distance `k` has penalized value `sample - lambda * k^2`, and
`if( val >= max ) { max = val; index = jj; }` updates on ties, so the
candidate scanned last wins ties. -/
def scanStep (smp : Nat → ℚ) (lam : ℚ) (p : ℚ × Nat) (k : Nat) : ℚ × Nat :=
  if p.1 ≤ smp k - lam * (k : ℚ) ^ 2 then (smp k - lam * (k : ℚ) ^ 2, k) else p

/-- The inner search loop over the window `jj = index .. 0` (distances
`k = w` down to `0`): `max` starts at the numeric minimum, so the first
candidate (distance `w`) is always taken; each later candidate replaces
the running maximum when `val >= max`.  `smp k` is the sample at
distance `k` from the current position (against the scan direction in
the forward pass, along it in the backward pass). -/
def runScan (smp : Nat → ℚ) (lam : ℚ) (w : Nat) : ℚ × Nat :=
  (List.range w).reverse.foldl (scanStep smp lam) (smp w - lam * (w : ℚ) ^ 2, w)

/-- The left-to-right pass of the dilation branch: `buf[0] = in[0]`;
at each next sample, `--index` widens the window by one; if the new
sample dominates the previous running value (`*in >= *(buf-1)`) the
result is the sample itself and the window resets to zero, otherwise
the window `[index, 0]` is searched.  Returns the pair (buffer value,
window size `-index`) at position `i`. -/
def fwdPass (f : Nat → ℚ) (lam : ℚ) : Nat → ℚ × Nat
  | 0 => (f 0, 0)
  | i + 1 =>
      if (fwdPass f lam i).1 ≤ f (i + 1) then (f (i + 1), 0)
      else runScan (fun k => f (i + 1 - k)) lam ((fwdPass f lam i).2 + 1)

/-- The right-to-left pass over the first pass's buffer `g`:
`out[length-1] = buf[length-1]`; stepping left, `++index` widens the
window; if the buffer value dominates the out value just computed to
the right (`*buf >= *(out + outStride)`) the result is the buffer value
and the window resets, otherwise the window `[0, index]` to the right
is searched.  `t` counts steps from the right end of a line of length
`L`; the pair is (out value, window size `index`) at position
`L - 1 - t`. -/
def bwdPass (g : Nat → ℚ) (lam : ℚ) (L : Nat) : Nat → ℚ × Nat
  | 0 => (g (L - 1), 0)
  | t + 1 =>
      if (bwdPass g lam L t).1 ≤ g (L - 1 - (t + 1)) then (g (L - 1 - (t + 1)), 0)
      else runScan (fun k => g (L - 1 - (t + 1) + k)) lam ((bwdPass g lam L t).2 + 1)

/-- The complete per-line parabolic dilation with parameter sigma
(`lambda = 1.0 / ( sigma * sigma )`): forward pass into the thread
buffer, then backward pass into the output line; value at position
`i` of a line of length `L`. -/
def parabolicDilateLine (f : Nat → ℚ) (sigma : ℚ) (L : Nat) (i : Nat) : ℚ :=
  (bwdPass (fun j => (fwdPass f (1 / (sigma * sigma)) j).1)
    (1 / (sigma * sigma)) L (L - 1 - i)).1

/-- A line that is zero except for a single spike of height `hgt` at
position `p`. -/
def spike (p : Nat) (hgt : ℚ) : Nat → ℚ := fun j => if j = p then hgt else 0

lemma foldl_scanStep_no_update (smp : Nat → ℚ) (lam : ℚ) (ks : List Nat) (p : ℚ × Nat)
    (hlt : ∀ k ∈ ks, smp k - lam * (k : ℚ) ^ 2 < p.1) :
    ks.foldl (scanStep smp lam) p = p := by
  induction ks with
  | nil => rfl
  | cons k ks ih =>
    have hk := hlt k (by simp)
    have hstep : scanStep smp lam p k = p := by
      unfold scanStep
      rw [if_neg (not_le.mpr hk)]
    rw [List.foldl_cons, hstep]
    exact ih (fun k hk => hlt k (by simp [hk]))

lemma foldl_scanStep_zero_last (smp : Nat → ℚ) (lam : ℚ) (ks : List Nat) (p : ℚ × Nat)
    (hp : p.1 ≤ 0) (hks : ∀ k ∈ ks, smp k - lam * (k : ℚ) ^ 2 ≤ 0) (h0 : smp 0 = 0) :
    (ks ++ [0]).foldl (scanStep smp lam) p = (0, 0) := by
  induction ks generalizing p with
  | nil =>
    simp only [List.nil_append, List.foldl_cons, List.foldl_nil]
    unfold scanStep
    have hv : smp 0 - lam * ((0 : Nat) : ℚ) ^ 2 = 0 := by
      rw [h0]
      norm_num
    rw [hv, if_pos hp]
  | cons k ks ih =>
    simp only [List.cons_append, List.foldl_cons]
    by_cases hc : p.1 ≤ smp k - lam * (k : ℚ) ^ 2
    · have hstep : scanStep smp lam p k = (smp k - lam * (k : ℚ) ^ 2, k) := by
        unfold scanStep
        rw [if_pos hc]
      rw [hstep]
      exact ih _ (hks k (by simp)) (fun k hk => hks k (by simp [hk]))
    · have hstep : scanStep smp lam p k = p := by
        unfold scanStep
        rw [if_neg hc]
      rw [hstep]
      exact ih _ hp (fun k hk => hks k (by simp [hk]))

lemma runScan_spike_window (smp : Nat → ℚ) (lam : ℚ) (w : Nat) (hlam : 0 < lam)
    (hz : ∀ k < w, smp k = 0) (hpos : 0 < smp w) :
    runScan smp lam w = if 0 < smp w - lam * (w : ℚ) ^ 2
      then (smp w - lam * (w : ℚ) ^ 2, w) else (0, 0) := by
  by_cases hcase : 0 < smp w - lam * (w : ℚ) ^ 2
  · rw [if_pos hcase]
    unfold runScan
    apply foldl_scanStep_no_update
    intro k hk
    have hkw : k < w := by
      have := List.mem_reverse.mp hk
      exact List.mem_range.mp this
    rw [hz k hkw]
    have hk2 : (0 : ℚ) ≤ lam * (k : ℚ) ^ 2 := by positivity
    simp only []
    nlinarith
  · rw [if_neg hcase]
    have hw1 : 1 ≤ w := by
      by_contra hw
      have hw0 : w = 0 := by omega
      subst hw0
      simp at hcase
      nlinarith
    obtain ⟨v, hv⟩ : ∃ v, w = v + 1 := ⟨w - 1, by omega⟩
    subst hv
    unfold runScan
    have hrange : (List.range (v + 1)).reverse =
        ((List.range v).map (· + 1)).reverse ++ [0] := by
      rw [List.range_succ_eq_map]
      simp
    rw [hrange]
    apply foldl_scanStep_zero_last
    · exact le_of_not_lt hcase
    · intro k hk
      have hk1 : k ∈ (List.range v).map (· + 1) := List.mem_reverse.mp hk
      obtain ⟨j, hj, hjk⟩ := List.mem_map.mp hk1
      have hkw : k < v + 1 := by
        have := List.mem_range.mp hj
        omega
      rw [hz k hkw]
      have : (0 : ℚ) ≤ lam * (k : ℚ) ^ 2 := by positivity
      linarith
    · exact hz 0 (by omega)

lemma fwdPass_spike (p : Nat) (hgt lam : ℚ) (hlam : 0 < lam) (hh : 0 < hgt) :
    ∀ i, fwdPass (spike p hgt) lam i =
      if i < p then (0, 0)
      else if 0 < hgt - lam * ((i - p : Nat) : ℚ) ^ 2
        then (hgt - lam * ((i - p : Nat) : ℚ) ^ 2, i - p) else (0, 0) := by
  intro i
  induction i with
  | zero =>
    by_cases hp : 0 < p
    · rw [if_pos hp]
      show (spike p hgt 0, 0) = (0, 0)
      rw [show spike p hgt 0 = 0 from by unfold spike; rw [if_neg (by omega : ¬(0 = p))]]
    · have hp0 : p = 0 := by omega
      subst hp0
      rw [if_neg (by omega : ¬(0 < 0))]
      have hc : 0 < hgt - lam * ((0 - 0 : Nat) : ℚ) ^ 2 := by
        norm_num
        exact hh
      rw [if_pos hc]
      show (spike 0 hgt 0, 0) = _
      rw [show spike 0 hgt 0 = hgt from by unfold spike; rw [if_pos rfl]]
      norm_num
  | succ i ih =>
    rw [fwdPass, ih]
    by_cases ha : i + 1 < p
    · rw [if_pos (by omega : i < p)]
      have hf : spike p hgt (i + 1) = 0 := by
        unfold spike
        rw [if_neg (by omega : ¬(i + 1 = p))]
      rw [hf]
      rw [if_pos (by norm_num : ((0, 0) : ℚ × Nat).1 ≤ (0 : ℚ))]
      rw [if_pos ha]
    · by_cases hb : i + 1 = p
      · rw [if_pos (by omega : i < p)]
        have hf : spike p hgt (i + 1) = hgt := by
          unfold spike
          rw [if_pos hb]
        rw [hf]
        rw [if_pos (by norm_num; exact le_of_lt hh : ((0, 0) : ℚ × Nat).1 ≤ hgt)]
        rw [if_neg (by omega : ¬(i + 1 < p))]
        have hc : 0 < hgt - lam * ((i + 1 - p : Nat) : ℚ) ^ 2 := by
          rw [show i + 1 - p = 0 from by omega]
          norm_num
          exact hh
        rw [if_pos hc]
        rw [show i + 1 - p = 0 from by omega]
        norm_num
      · have hpi : p ≤ i := by omega
        rw [if_neg (by omega : ¬(i < p))]
        have hf : spike p hgt (i + 1) = 0 := by
          unfold spike
          rw [if_neg (by omega : ¬(i + 1 = p))]
        rw [hf]
        by_cases hc1 : 0 < hgt - lam * ((i - p : Nat) : ℚ) ^ 2
        · rw [if_pos hc1]
          rw [if_neg (by simp only []; linarith :
            ¬((hgt - lam * ((i - p : Nat) : ℚ) ^ 2, i - p) : ℚ × Nat).1 ≤ (0 : ℚ))]
          have hscan := runScan_spike_window (fun k => spike p hgt (i + 1 - k)) lam
            (i - p + 1) hlam ?_ ?_
          · rw [hscan]
            beta_reduce
            have hw : spike p hgt (i + 1 - (i - p + 1)) = hgt := by
              unfold spike
              rw [if_pos (by omega : i + 1 - (i - p + 1) = p)]
            rw [hw]
            have hwp : i - p + 1 = i + 1 - p := by omega
            rw [hwp]
            rw [if_neg (by omega : ¬(i + 1 < p))]
          · intro k hk
            show spike p hgt (i + 1 - k) = 0
            unfold spike
            rw [if_neg (by omega : ¬(i + 1 - k = p))]
          · show 0 < spike p hgt (i + 1 - (i - p + 1))
            have hw : spike p hgt (i + 1 - (i - p + 1)) = hgt := by
              unfold spike
              rw [if_pos (by omega : i + 1 - (i - p + 1) = p)]
            rw [hw]
            exact hh
        · rw [if_neg hc1]
          rw [if_pos (by norm_num : ((0, 0) : ℚ × Nat).1 ≤ (0 : ℚ))]
          rw [if_neg (by omega : ¬(i + 1 < p))]
          have hmono : lam * ((i - p : Nat) : ℚ) ^ 2 ≤ lam * ((i + 1 - p : Nat) : ℚ) ^ 2 := by
        
            have hcast : ((i - p : Nat) : ℚ) ≤ ((i + 1 - p : Nat) : ℚ) := by
              exact_mod_cast (by omega : i - p ≤ i + 1 - p)
            have hnn : (0 : ℚ) ≤ ((i - p : Nat) : ℚ) := by positivity
            have hsq : ((i - p : Nat) : ℚ) ^ 2 ≤ ((i + 1 - p : Nat) : ℚ) ^ 2 :=
              pow_le_pow_left hnn hcast 2
            exact mul_le_mul_of_nonneg_left hsq (le_of_lt hlam)
          rw [if_neg (by push_neg at hc1 ⊢; linarith :
            ¬(0 < hgt - lam * ((i + 1 - p : Nat) : ℚ) ^ 2))]

/-- The value profile left in the forward-pass buffer by a single
spike: zero left of the spike, the clipped parabola from the spike
position rightward. -/
def spikeProfile (p : Nat) (hgt lam : ℚ) : Nat → ℚ :=
  fun j => if j < p then 0
    else if 0 < hgt - lam * ((j - p : Nat) : ℚ) ^ 2
      then hgt - lam * ((j - p : Nat) : ℚ) ^ 2 else 0

lemma fwdPass_spike_value (p : Nat) (hgt lam : ℚ) (hlam : 0 < lam) (hh : 0 < hgt) (j : Nat) :
    (fwdPass (spike p hgt) lam j).1 = spikeProfile p hgt lam j := by
  rw [fwdPass_spike p hgt lam hlam hh j]
  unfold spikeProfile
  split_ifs <;> rfl

lemma lam_sq_mono (lam : ℚ) (hlam : 0 < lam) (a b : Nat) (hab : a ≤ b) :
    lam * ((a : Nat) : ℚ) ^ 2 ≤ lam * ((b : Nat) : ℚ) ^ 2 := by
  have hcast : ((a : Nat) : ℚ) ≤ ((b : Nat) : ℚ) := by exact_mod_cast hab
  have hnn : (0 : ℚ) ≤ ((a : Nat) : ℚ) := by positivity
  have hsq : ((a : Nat) : ℚ) ^ 2 ≤ ((b : Nat) : ℚ) ^ 2 := pow_le_pow_left₀ hnn hcast 2
  exact mul_le_mul_of_nonneg_left hsq (le_of_lt hlam)

lemma spikeProfile_nonneg (p : Nat) (hgt lam : ℚ) (j : Nat) :
    0 ≤ spikeProfile p hgt lam j := by
  unfold spikeProfile
  split_ifs with h1 h2
  · exact le_refl 0
  · linarith
  · exact le_refl 0

lemma spikeProfile_zero (p : Nat) (hgt lam : ℚ) (j : Nat) (hj : j < p) :
    spikeProfile p hgt lam j = 0 := by
  unfold spikeProfile
  rw [if_pos hj]

lemma spikeProfile_at_p (p : Nat) (hgt lam : ℚ) (hh : 0 < hgt) :
    spikeProfile p hgt lam p = hgt := by
  unfold spikeProfile
  rw [if_neg (by omega : ¬(p < p))]
  rw [show p - p = 0 from by omega]
  rw [if_pos (by norm_num; exact hh)]
  norm_num

lemma spikeProfile_anti (p : Nat) (hgt lam : ℚ) (hlam : 0 < lam) (a b : Nat)
    (hpa : p ≤ a) (hab : a ≤ b) :
    spikeProfile p hgt lam b ≤ spikeProfile p hgt lam a := by
  have hnb := spikeProfile_nonneg p hgt lam a
  unfold spikeProfile
  rw [if_neg (by omega : ¬(b < p)), if_neg (by omega : ¬(a < p))]
  have hmono := lam_sq_mono lam hlam (a - p) (b - p) (by omega)
  split_ifs with h1 h2 h3
  · linarith
  · linarith
  · linarith
  · exact le_refl 0

lemma bwdPass_spikeProfile (p : Nat) (hgt lam : ℚ) (L : Nat)
    (hlam : 0 < lam) (hh : 0 < hgt) (hp : p < L) :
    ∀ t, t ≤ L - 1 →
      bwdPass (spikeProfile p hgt lam) lam L t =
        if p ≤ L - 1 - t then (spikeProfile p hgt lam (L - 1 - t), 0)
        else if 0 < hgt - lam * ((p - (L - 1 - t) : Nat) : ℚ) ^ 2
          then (hgt - lam * ((p - (L - 1 - t) : Nat) : ℚ) ^ 2, p - (L - 1 - t))
          else (0, 0) := by
  intro t
  induction t with
  | zero =>
    intro _
    rw [if_pos (by omega : p ≤ L - 1 - 0)]
    rfl
  | succ t ih =>
    intro ht1
    have ih' := ih (by omega)
    have hq : L - 1 - t = (L - 1 - (t + 1)) + 1 := by omega
    rw [bwdPass, ih']
    by_cases hA : p ≤ L - 1 - (t + 1)
    · rw [if_pos (by omega : p ≤ L - 1 - t)]
      rw [if_pos hA]
      have hmono := spikeProfile_anti p hgt lam hlam (L - 1 - (t + 1)) (L - 1 - t)
        hA (by omega)
      rw [if_pos (by simpa using hmono :
        ((spikeProfile p hgt lam (L - 1 - t), 0) : ℚ × Nat).1 ≤
          spikeProfile p hgt lam (L - 1 - (t + 1)))]
    · rw [if_neg hA]
      by_cases hB : p ≤ L - 1 - t
      · -- the right neighbor is exactly the spike position
        have hpq : p = L - 1 - t := by omega
        rw [if_pos hB]
        have hGq : spikeProfile p hgt lam (L - 1 - t) = hgt := by
          rw [← hpq]
          exact spikeProfile_at_p p hgt lam hh
        have hGq' : spikeProfile p hgt lam (L - 1 - (t + 1)) = 0 :=
          spikeProfile_zero p hgt lam _ (by omega)
        rw [if_neg (by
          simp only [hGq, hGq']
          linarith :
          ¬((spikeProfile p hgt lam (L - 1 - t), 0) : ℚ × Nat).1 ≤
            spikeProfile p hgt lam (L - 1 - (t + 1)))]
        have hscan := runScan_spike_window
          (fun k => spikeProfile p hgt lam (L - 1 - (t + 1) + k)) lam 1 hlam ?_ ?_
        · rw [hscan]
          beta_reduce
          have hw : spikeProfile p hgt lam (L - 1 - (t + 1) + 1) = hgt := by
            rw [show L - 1 - (t + 1) + 1 = p from by omega]
            exact spikeProfile_at_p p hgt lam hh
          rw [hw]
          rw [show p - (L - 1 - (t + 1)) = 1 from by omega]
        · intro k hk
          show spikeProfile p hgt lam (L - 1 - (t + 1) + k) = 0
          exact spikeProfile_zero p hgt lam _ (by omega)
        · show 0 < spikeProfile p hgt lam (L - 1 - (t + 1) + 1)
          rw [show L - 1 - (t + 1) + 1 = p from by omega]
          rw [spikeProfile_at_p p hgt lam hh]
          exact hh
      · -- both current and right neighbor are left of the spike
        rw [if_neg hB]
        have hGq' : spikeProfile p hgt lam (L - 1 - (t + 1)) = 0 :=
          spikeProfile_zero p hgt lam _ (by omega)
        by_cases hC : 0 < hgt - lam * ((p - (L - 1 - t) : Nat) : ℚ) ^ 2
        · rw [if_pos hC]
          rw [if_neg (by
            simp only [hGq']
            linarith :
            ¬((hgt - lam * ((p - (L - 1 - t) : Nat) : ℚ) ^ 2, p - (L - 1 - t)) :
              ℚ × Nat).1 ≤ spikeProfile p hgt lam (L - 1 - (t + 1)))]
          have hscan := runScan_spike_window
            (fun k => spikeProfile p hgt lam (L - 1 - (t + 1) + k)) lam
            (p - (L - 1 - t) + 1) hlam ?_ ?_
          · rw [hscan]
            beta_reduce
            have hw : spikeProfile p hgt lam
                (L - 1 - (t + 1) + (p - (L - 1 - t) + 1)) = hgt := by
              rw [show L - 1 - (t + 1) + (p - (L - 1 - t) + 1) = p from by omega]
              exact spikeProfile_at_p p hgt lam hh
            rw [hw]
            rw [show p - (L - 1 - t) + 1 = p - (L - 1 - (t + 1)) from by omega]
          · intro k hk
            show spikeProfile p hgt lam (L - 1 - (t + 1) + k) = 0
            exact spikeProfile_zero p hgt lam _ (by omega)
          · show 0 < spikeProfile p hgt lam (L - 1 - (t + 1) + (p - (L - 1 - t) + 1))
            rw [show L - 1 - (t + 1) + (p - (L - 1 - t) + 1) = p from by omega]
            rw [spikeProfile_at_p p hgt lam hh]
            exact hh
        · rw [if_neg hC]
          rw [if_pos (by
            simp only [hGq']
            norm_num :
            ((0, 0) : ℚ × Nat).1 ≤ spikeProfile p hgt lam (L - 1 - (t + 1)))]
          rw [hGq']
          have hmono := lam_sq_mono lam hlam (p - (L - 1 - t)) (p - (L - 1 - (t + 1)))
            (by omega)
          rw [if_neg (by push_neg at hC ⊢; linarith :
            ¬(0 < hgt - lam * ((p - (L - 1 - (t + 1)) : Nat) : ℚ) ^ 2))]

/-- CL9 (amended): for every line that is zero except for a single
spike of height `h > 0` at position `p`, parabolic dilation with
parameter `sigma > 0` (penalty `val - lambda * offset^2` with
`lambda = 1 / (sigma * sigma)`), computed by the exact two-pass
(left-to-right then right-to-left) running-maximum algorithm with the
reset-on-domination shortcut, produces at every position `i` the value
`h - (i - p)^2 / sigma^2` wherever that value exceeds the zero
background, and the background value elsewhere; and in the backward
search `if( val >= max )` the candidate scanned last wins ties, which
is the smaller-magnitude offset nearest the current sample (on a
two-candidate window, offset 0 is retained whenever its value is at
least the distance-1 value, including on ties). -/
theorem parabolic_dilation_spike (sigma hgt : ℚ) (L p i : Nat)
    (hs : 0 < sigma) (hh : 0 < hgt) (hp : p < L) (hi : i < L) :
    parabolicDilateLine (spike p hgt) sigma L i =
      max (hgt - ((i : ℚ) - (p : ℚ)) ^ 2 / (sigma * sigma)) 0 ∧
    (∀ smp : Nat → ℚ, ∀ lam : ℚ,
      runScan smp lam 1 =
        if smp 1 - lam ≤ smp 0 then (smp 0, 0) else (smp 1 - lam, 1)) := by
  constructor
  · have hlam : 0 < 1 / (sigma * sigma) := by positivity
    unfold parabolicDilateLine
    have hg : (fun j => (fwdPass (spike p hgt) (1 / (sigma * sigma)) j).1) =
        spikeProfile p hgt (1 / (sigma * sigma)) := by
      funext j
      exact fwdPass_spike_value p hgt (1 / (sigma * sigma)) hlam hh j
    rw [hg]
    rw [bwdPass_spikeProfile p hgt (1 / (sigma * sigma)) L hlam hh hp
      (L - 1 - i) (by omega)]
    have hLi : L - 1 - (L - 1 - i) = i := by omega
    rw [hLi]
    have harith : ∀ d : Nat, hgt - (1 / (sigma * sigma)) * ((d : Nat) : ℚ) ^ 2 =
        hgt - ((d : Nat) : ℚ) ^ 2 / (sigma * sigma) := by
      intro d
      field_simp
    by_cases hpi : p ≤ i
    · rw [if_pos hpi]
      unfold spikeProfile
      rw [if_neg (by omega : ¬(i < p))]
      have hcast : ((i - p : Nat) : ℚ) = (i : ℚ) - (p : ℚ) := by
        push_cast [Nat.cast_sub hpi]
        ring
      by_cases hc : 0 < hgt - (1 / (sigma * sigma)) * ((i - p : Nat) : ℚ) ^ 2
      · rw [if_pos hc]
        show hgt - (1 / (sigma * sigma)) * ((i - p : Nat) : ℚ) ^ 2 = _
        rw [harith, hcast]
        exact (max_eq_left (by rw [harith, hcast] at hc; linarith)).symm
      · rw [if_neg hc]
        show (0 : ℚ) = _
        rw [harith, hcast] at hc
        exact (max_eq_right (by linarith)).symm
    · rw [if_neg hpi]
      have hcast : ((p - i : Nat) : ℚ) = (p : ℚ) - (i : ℚ) := by
        push_cast [Nat.cast_sub (by omega : i ≤ p)]
        ring
      have hsq : ((p : ℚ) - (i : ℚ)) ^ 2 = ((i : ℚ) - (p : ℚ)) ^ 2 := by ring
      by_cases hc : 0 < hgt - (1 / (sigma * sigma)) * ((p - i : Nat) : ℚ) ^ 2
      · rw [if_pos hc]
        show hgt - (1 / (sigma * sigma)) * ((p - i : Nat) : ℚ) ^ 2 = _
        rw [harith, hcast, hsq]
        rw [harith, hcast, hsq] at hc
        exact (max_eq_left (by linarith)).symm
      · rw [if_neg hc]
        show (0 : ℚ) = _
        rw [harith, hcast, hsq] at hc
        exact (max_eq_right (by linarith)).symm
  · intro smp lam
    unfold runScan
    rw [show List.range 1 = [0] from rfl]
    simp only [List.reverse_cons, List.reverse_nil, List.nil_append,
      List.foldl_cons, List.foldl_nil]
    unfold scanStep
    norm_num

/-- Counterexample for the tie-break clause of CL9 as stated: with
`lambda = 1` and samples 1 at distance 1 and 0 at distance 0, the two
penalized candidate values tie (`1 - 1*1^2 = 0 - 1*0^2`), yet the
search retains offset 0 — the later-scanned, smaller-magnitude offset —
not the larger-magnitude offset 1. -/
theorem parabolic_tie_break_counterexample :
    ((fun k => if k = 1 then (1 : ℚ) else 0) 1 - 1 * ((1 : Nat) : ℚ) ^ 2 =
      (fun k => if k = 1 then (1 : ℚ) else 0) 0 - 1 * ((0 : Nat) : ℚ) ^ 2) ∧
    runScan (fun k => if k = 1 then (1 : ℚ) else 0) 1 1 = (0, 0) ∧
    (runScan (fun k => if k = 1 then (1 : ℚ) else 0) 1 1).2 ≠ 1 := by
  refine ⟨by norm_num, ?_, ?_⟩
  · unfold runScan
    rw [show List.range 1 = [0] from rfl]
    simp only [List.reverse_cons, List.reverse_nil, List.nil_append,
      List.foldl_cons, List.foldl_nil]
    unfold scanStep
    norm_num
  · unfold runScan
    rw [show List.range 1 = [0] from rfl]
    simp only [List.reverse_cons, List.reverse_nil, List.nil_append,
      List.foldl_cons, List.foldl_nil]
    unfold scanStep
    norm_num

/-- Witness for `parabolic_dilation_spike`: a spike of height 1 at
position 1 of a 3-sample line with sigma 1, evaluated at position 2. -/
theorem parabolic_dilation_spike_witness :
    (parabolicDilateLine (spike 1 1) 1 3 2 =
      max ((1 : ℚ) - (((2 : Nat) : ℚ) - ((1 : Nat) : ℚ)) ^ 2 / (1 * 1)) 0) ∧
    (∀ smp : Nat → ℚ, ∀ lam : ℚ,
      runScan smp lam 1 =
        if smp 1 - lam ≤ smp 0 then (smp 0, 0) else (smp 1 - lam, 1)) :=
  parabolic_dilation_spike 1 1 3 1 2 (by norm_num) (by norm_num) (by omega) (by omega)
